import Mathlib

/-!
Verification of the spaced-repetition scheduling core of the `learn_dutch`
vocabulary trainer.

The Python modules under `src/core/fsrs/` are shallowly embedded here:

* timestamps (`datetime` instants, UTC) become rationals counting seconds
  since the epoch; a UTC calendar date becomes the floor of the timestamp
  divided by 86400;
* Python floats become rationals; the only transcendental primitive the
  core uses, `math.exp`, is abstracted as an explicit function parameter
  `fexp : ℚ → ℚ` (theorems assume of it only properties real `exp`
  enjoys on the arguments actually passed, and concrete instances supply
  a rational stand-in with those properties);
* `memory_state.get_days_since_ltm_review` reads the ambient wall clock
  (`datetime.now(timezone.utc)`); that clock read is made explicit as a
  `wall_clock_now` argument threaded to exactly the places the source
  reads the clock.

Names follow the Python sources (`core/fsrs/constants.py`,
`memory_state.py`, `ltm_updates.py`, `stm_updates.py`, `scheduler.py`,
`database.py`, `app/session_controller.py`,
`core/session_builders/*.py`), module by module.
-/

/-- User feedback on a retrieval attempt (`constants.FeedbackGrade`). -/
inductive FeedbackGrade where
  | AGAIN
  | HARD
  | MEDIUM
  | EASY
deriving DecidableEq, Repr

open FeedbackGrade

/-- `constants.R_TARGET = 0.70`. -/
def R_TARGET : ℚ := 7/10

/-- `constants.S_MIN = 0.5`. -/
def S_MIN : ℚ := 1/2

/-- `constants.D_MIN = 1.0`. -/
def D_MIN : ℚ := 1

/-- `constants.D_MAX = 10.0`. -/
def D_MAX : ℚ := 10

/-- `constants.K = 1.2`. -/
def K : ℚ := 6/5

/-- `constants.K_FAIL = 0.6`. -/
def K_FAIL : ℚ := 3/5

/-- `constants.ALPHA = 0.15`. -/
def ALPHA : ℚ := 3/20

/-- `constants.ETA = 0.8`. -/
def ETA : ℚ := 4/5

/-- `constants.BASE_GAIN` (dict keyed by HARD/MEDIUM/EASY; the source dict
has no AGAIN entry and is never looked up at AGAIN, so AGAIN is mapped to
an arbitrary value here). -/
def BASE_GAIN : FeedbackGrade → ℚ
  | .AGAIN => 0
  | .HARD => 1/2
  | .MEDIUM => 1
  | .EASY => 9/5

/-- `constants.U_RATING`. -/
def U_RATING : FeedbackGrade → ℚ
  | .AGAIN => 1
  | .HARD => 7/20
  | .MEDIUM => -(1/5)
  | .EASY => -(3/5)

/-- UTC calendar date of an instant, as a day index: `datetime.date()` of a
UTC timestamp given in seconds since the epoch. -/
def dateOf (t : ℚ) : ℤ := ⌊t / 86400⌋

/-- `memory_state.CardState` (the `lemma`/`pos` string metadata is carried
along untouched; the field `word_lemma` stands for the Python attribute
`lemma`, which is a reserved word in Lean). `ltm_review_date` stores the
day index of the ISO date string in the source. -/
structure CardState where
  word_id : ℕ
  word_lemma : String
  pos : String
  exercise_type : String
  stability : ℚ
  difficulty : ℚ
  d_eff : ℚ
  review_count : ℕ
  last_review_timestamp : ℚ
  last_ltm_timestamp : Option ℚ
  ltm_review_date : Option ℤ
  stm_success_count_today : ℕ
deriving DecidableEq, Repr

/-- The review-event dict built by `scheduler.process_review` and
`session_controller._build_known_no_score_event` and consumed by
`database.batch_log_review_events`. `is_ltm_event` is an integer because
Python `bool` is an `int` subtype (`True = 1`, `False = 0`) and the
KNOWN-no-score path stores the plain int `2` in the same key. -/
structure EventData where
  word_id : ℕ
  word_lemma : String
  pos : String
  exercise_type : String
  timestamp : ℚ
  feedback_grade : FeedbackGrade
  latency_ms : Option ℤ
  stability_before : Option ℚ
  difficulty_before : Option ℚ
  d_eff_before : Option ℚ
  retrievability_before : Option ℚ
  stability_after : ℚ
  difficulty_after : ℚ
  d_eff_after : ℚ
  is_ltm_event : ℤ
  session_id : Option ℕ
  session_position : Option ℕ
  presentation_mode : Option String
deriving DecidableEq, Repr

namespace memory_state

/-- `memory_state.calculate_retrievability`: `R = exp(-Δt/S)`, with the
source's clamp `if days_since_ltm_review <= 0: return 1.0`. `fexp` stands
for `math.exp`. -/
def calculate_retrievability (fexp : ℚ → ℚ) (stability days_since_ltm_review : ℚ) : ℚ :=
  if days_since_ltm_review ≤ 0 then 1
  else fexp (-(days_since_ltm_review / stability))

/-- `memory_state.get_days_since_ltm_review`. The source computes
`now = datetime.now(timezone.utc)` internally — it reads the wall clock,
made explicit here as `wall_clock_now` — and returns
`(now - last_ltm_timestamp).total_seconds() / 86400`. -/
def get_days_since_ltm_review (wall_clock_now : ℚ) (last_ltm_timestamp : Option ℚ) : ℚ :=
  match last_ltm_timestamp with
  | none => 0
  | some t => (wall_clock_now - t) / 86400

/-- `memory_state.is_ltm_event`: LTM iff never reviewed or the UTC calendar
date of the last LTM review differs from that of the current review. -/
def is_ltm_event (last_ltm_timestamp : Option ℚ) (current_timestamp : ℚ) : Bool :=
  match last_ltm_timestamp with
  | none => true
  | some t => dateOf t != dateOf current_timestamp

end memory_state

namespace ltm_updates

/-- `ltm_updates.update_stability_on_success`. The source raises on AGAIN;
it is only ever called with a success grade. -/
def update_stability_on_success (stability retrievability difficulty_used : ℚ)
    (feedback_grade : FeedbackGrade) (is_new_card : Bool) : ℚ :=
  let base_gain := BASE_GAIN feedback_grade
  if is_new_card = true ∨ 99/100 ≤ retrievability then
    max S_MIN (S_MIN * base_gain * 2)
  else
    let f_d := 1 / (1 + ALPHA * (difficulty_used - 1))
    let delta_s := K * stability * base_gain * (1 - retrievability) * f_d
    max S_MIN (stability + delta_s)

/-- `ltm_updates.update_stability_on_failure`:
`S_new = max(S_MIN, S * (1 - K_FAIL * R))`. -/
def update_stability_on_failure (stability retrievability : ℚ) : ℚ :=
  max S_MIN (stability * (1 - K_FAIL * retrievability))

/-- `ltm_updates.update_difficulty`:
`D_new = clip(D + ETA * surprise * u(rating), 1, 10)` where `surprise` is
`R` on failure and `1 - R` on success. -/
def update_difficulty (difficulty retrievability : ℚ) (feedback_grade : FeedbackGrade) : ℚ :=
  let surprise := if feedback_grade = AGAIN then retrievability else 1 - retrievability
  let delta_d := ETA * surprise * U_RATING feedback_grade
  max D_MIN (min D_MAX (difficulty + delta_d))

/-- `ltm_updates.compute_d_floor`: the counterfactual difficulty had the
user answered HARD, clipped to `[D_MIN, D_MAX]`. -/
def compute_d_floor (difficulty retrievability : ℚ) : ℚ :=
  let surprise := 1 - retrievability
  let delta_d := ETA * surprise * U_RATING HARD
  max D_MIN (min D_MAX (difficulty + delta_d))

/-- `ltm_updates.apply_ltm_update`: returns
`(new_stability, new_difficulty, d_floor)`. -/
def apply_ltm_update (stability difficulty d_eff retrievability : ℚ)
    (feedback_grade : FeedbackGrade) (is_new_card : Bool) : ℚ × ℚ × ℚ :=
  let new_stability :=
    if feedback_grade = AGAIN then
      update_stability_on_failure stability retrievability
    else
      update_stability_on_success stability retrievability d_eff feedback_grade is_new_card
  let new_difficulty := update_difficulty difficulty retrievability feedback_grade
  let d_floor := compute_d_floor new_difficulty retrievability
  (new_stability, new_difficulty, d_floor)

end ltm_updates

namespace stm_updates

/-- `stm_updates.apply_stm_success_update`:
`lambda_m = 0.5 / (m + 1)`, `D_eff_new = max(D_floor, D_floor + (D_eff - D_floor) * (1 - lambda_m))`. -/
def apply_stm_success_update (d_eff d_floor : ℚ) (stm_success_count : ℕ) : ℚ :=
  let lambda_m : ℚ := (1/2) / (stm_success_count + 1)
  let new_d_eff := d_floor + (d_eff - d_floor) * (1 - lambda_m)
  max d_floor new_d_eff

/-- `stm_updates.should_update_d_eff`: only success grades update D_eff. -/
def should_update_d_eff : FeedbackGrade → Bool
  | .AGAIN => false
  | _ => true

end stm_updates

namespace scheduler

open memory_state ltm_updates stm_updates

/-- `scheduler._apply_ltm_update` (in-place mutation modelled
functionally): applies the LTM formulas and the LTM bookkeeping
(`D_eff := new D`, timestamps, reset of the STM success count). A `none`
retrievability marks a new card and is replaced by `1.0`. -/
def apply_ltm_update_card (card : CardState) (feedback_grade : FeedbackGrade)
    (retrievability : Option ℚ) (timestamp : ℚ) : CardState :=
  let is_new := retrievability.isNone
  let r := retrievability.getD 1
  let res := ltm_updates.apply_ltm_update card.stability card.difficulty card.d_eff r
    feedback_grade is_new
  { card with
    stability := res.1
    difficulty := res.2.1
    d_eff := res.2.1
    last_review_timestamp := timestamp
    last_ltm_timestamp := some timestamp
    ltm_review_date := some (dateOf timestamp)
    stm_success_count_today := 0 }

/-- `scheduler._apply_stm_update`. On a success grade it recomputes the
retrievability — through `get_days_since_ltm_review`, which reads the wall
clock — computes `D_floor`, moves `D_eff` toward it and increments the STM
success count; on any grade it updates `last_review_timestamp` only. -/
def apply_stm_update_card (fexp : ℚ → ℚ) (wall_clock_now : ℚ) (card : CardState)
    (feedback_grade : FeedbackGrade) (timestamp : ℚ) : CardState :=
  let card1 :=
    if should_update_d_eff feedback_grade then
      let days_since_ltm := get_days_since_ltm_review wall_clock_now card.last_ltm_timestamp
      let retrievability := calculate_retrievability fexp card.stability days_since_ltm
      let d_floor := compute_d_floor card.difficulty retrievability
      let new_d_eff := apply_stm_success_update card.d_eff d_floor card.stm_success_count_today
      { card with
        d_eff := new_d_eff
        stm_success_count_today := card.stm_success_count_today + 1 }
    else card
  { card1 with last_review_timestamp := timestamp }

/-- `scheduler.process_review`: classifies LTM vs STM from the explicit
`timestamp`, computes the pre-update retrievability — via
`get_days_since_ltm_review`, which reads the wall clock rather than using
`timestamp` — dispatches to the LTM or STM update, increments
`review_count` and assembles the event dict. -/
def process_review (fexp : ℚ → ℚ) (wall_clock_now : ℚ) (card : CardState)
    (feedback_grade : FeedbackGrade) (timestamp : ℚ) : CardState × EventData :=
  let is_new_card := card.review_count = 0
  let stability_before := if is_new_card then none else some card.stability
  let difficulty_before := if is_new_card then none else some card.difficulty
  let d_eff_before := if is_new_card then none else some card.d_eff
  let is_ltm := is_ltm_event card.last_ltm_timestamp timestamp
  let retrievability_before :=
    if is_new_card then none
    else some (calculate_retrievability fexp card.stability
      (get_days_since_ltm_review wall_clock_now card.last_ltm_timestamp))
  let card1 :=
    if is_ltm then apply_ltm_update_card card feedback_grade retrievability_before timestamp
    else apply_stm_update_card fexp wall_clock_now card feedback_grade timestamp
  let card2 := { card1 with review_count := card1.review_count + 1 }
  let event : EventData :=
    { word_id := card.word_id
      word_lemma := card.word_lemma
      pos := card.pos
      exercise_type := card.exercise_type
      timestamp := timestamp
      feedback_grade := feedback_grade
      latency_ms := none
      stability_before := stability_before
      difficulty_before := difficulty_before
      d_eff_before := d_eff_before
      retrievability_before := retrievability_before
      stability_after := card2.stability
      difficulty_after := card2.difficulty
      d_eff_after := card2.d_eff
      is_ltm_event := if is_ltm then 1 else 0
      session_id := none
      session_position := none
      presentation_mode := none }
  (card2, event)

end scheduler

/-- A rational stand-in for `math.exp` used to instantiate concrete runs:
on nonpositive arguments `rexpQ x = 1 / (1 - x)` lies in `(0, 1]`, equals
`1` at `0` and is strictly increasing, exactly the properties of real
`exp` the scheduler relies on. -/
def rexpQ (x : ℚ) : ℚ := 1 / (1 - x)

/-- `database.batch_log_review_events` stores the event-kind flag as
`1 if event['is_ltm_event'] else 0`: Python truthiness on the int-valued
flag (`0` is falsy, every other int truthy). -/
def persisted_is_ltm_event (flag : ℤ) : ℤ := if flag = 0 then 0 else 1

/-- `session_controller._build_known_no_score_event`: the event logged for
an item drawn from the KNOWN pool. The card state is copied verbatim into
both the `_before` and `_after` snapshot fields and the kind flag is the
int `2`; the timestamp is `datetime.now(timezone.utc)`. -/
def build_known_no_score_event (fexp : ℚ → ℚ) (wall_clock_now : ℚ) (card : CardState)
    (feedback_grade : FeedbackGrade) (latency_ms : Option ℤ)
    (session_id session_position : Option ℕ) (presentation_mode : Option String) : EventData :=
  let retrievability_before :=
    if card.last_ltm_timestamp.isSome ∧ 0 < card.review_count then
      some (memory_state.calculate_retrievability fexp card.stability
        (memory_state.get_days_since_ltm_review wall_clock_now card.last_ltm_timestamp))
    else none
  { word_id := card.word_id
    word_lemma := card.word_lemma
    pos := card.pos
    exercise_type := card.exercise_type
    timestamp := wall_clock_now
    feedback_grade := feedback_grade
    latency_ms := latency_ms
    stability_before := some card.stability
    difficulty_before := some card.difficulty
    d_eff_before := some card.d_eff
    retrievability_before := retrievability_before
    stability_after := card.stability
    difficulty_after := card.difficulty
    d_eff_after := card.d_eff
    is_ltm_event := 2
    session_id := session_id
    session_position := session_position
    presentation_mode := presentation_mode }

/-! ### Pool construction and session assembly (`core/session_builders/`)

Lexicon word dicts are reduced to the one field the builders inspect,
`word_id` (`w.get("word_id")`, possibly absent). Card snapshots are
reduced to the two fields the builders inspect, `word_id` and the
precomputed `retrievability`. Python sets and dicts are modelled as lists
(the iteration order is an input; set semantics are recovered by `dedup`
and uniqueness hypotheses where the source guarantees them), and the
`random` module's `shuffle` and `sample` are explicit function parameters
constrained, in the theorems, to permute and to draw without replacement
respectively. -/

/-- A lexicon word record, reduced to `w.get("word_id")`. -/
structure Word where
  word_id : Option ℕ
deriving DecidableEq, Repr

/-- A row of `database.get_all_cards_with_state`, reduced to the fields
the session builders read. -/
structure CardStateSnapshot where
  word_id : Option ℕ
  retrievability : ℚ
deriving DecidableEq, Repr

/-- `pool_types.PoolItem`. -/
structure PoolItem where
  word : Word
  status : String
deriving DecidableEq, Repr

/-- A row of the `review_events` table as read by `stm_state.build_stm_set`. -/
structure ReviewEventRow where
  user_id : String
  word_id : ℕ
  exercise_type : String
  feedback_grade : FeedbackGrade
  timestamp : ℚ
deriving DecidableEq, Repr

/-- `now.replace(hour=0, minute=0, second=0, microsecond=0)` for a UTC
instant: the start of the current UTC calendar day. -/
def today_start (now : ℚ) : ℚ := 86400 * ⌊now / 86400⌋

/-- `stm_state.build_stm_set`: the `(word_id, exercise_type)` pairs of all
events of this user and activity with grade AGAIN and timestamp at or
after the start of yesterday (UTC). The result is a set, so the list is
deduplicated. -/
def build_stm_set (events : List ReviewEventRow) (user_id exercise_type : String)
    (now : ℚ) : List (ℕ × String) :=
  let yesterday_start := today_start now - 86400
  ((events.filter (fun e => decide (e.user_id = user_id ∧
      e.exercise_type = exercise_type ∧
      yesterday_start ≤ e.timestamp ∧
      e.feedback_grade = FeedbackGrade.AGAIN))).map
    (fun e => (e.word_id, e.exercise_type))).dedup

/-- Modelled from the spec (§4.4): membership in the STM pool as the
specification words it — an AGAIN event in the last 0–1 calendar days
(today or yesterday UTC) and the most recent feedback in that window is
not EASY. Stated as a second definition only to compare `build_stm_set`
against the spec's words. -/
def spec_stm_mem (events : List ReviewEventRow) (user_id exercise_type : String)
    (now : ℚ) (wid : ℕ) : Prop :=
  let yesterday_start := today_start now - 86400
  let window := events.filter (fun e => decide (e.user_id = user_id ∧
    e.exercise_type = exercise_type ∧ yesterday_start ≤ e.timestamp ∧ e.word_id = wid))
  (∃ e ∈ window, e.feedback_grade = FeedbackGrade.AGAIN) ∧
  ¬ ∃ e ∈ window, e.feedback_grade = FeedbackGrade.EASY ∧
      ∀ e2 ∈ window, e2.timestamp ≤ e.timestamp

instance (events : List ReviewEventRow) (u x : String) (now : ℚ) (wid : ℕ) :
    Decidable (spec_stm_mem events u x now wid) := by
  unfold spec_stm_mem
  infer_instance

namespace pool_utils

/-- Inner loop of `pool_utils.fill_in_order`: append items of one pool
until the target size is reached. -/
def fill_pool (target : ℕ) : List PoolItem → List PoolItem → List PoolItem
  | session, [] => session
  | session, x :: xs =>
    if target ≤ session.length then session
    else fill_pool target (session ++ [x]) xs

/-- `pool_utils.fill_in_order`: walk the pools in the given order until
`target_size` is reached. -/
def fill_in_order (pools : List (List PoolItem)) (target_size : ℕ) : List PoolItem :=
  pools.foldl (fun session pool => fill_pool target_size session pool) []

/-- `pool_utils.due_cards_from_snapshot`: cards with `R` below the
threshold, sorted ascending by `R` (Python's stable `list.sort`). -/
def due_cards_from_snapshot (all_cards : List CardStateSnapshot) (r_threshold : ℚ) :
    List CardStateSnapshot :=
  (all_cards.filter (fun c => decide (c.retrievability < r_threshold))).mergeSort
    (fun a b => decide (a.retrievability ≤ b.retrievability))

/-- `pool_utils.sample_new_words`: uniform sample without replacement
(`random.sample`, abstracted as the `sample` parameter) from the words not
yet reviewed; a word with no id counts as unreviewed (`None` is not in the
reviewed-id set). -/
def sample_new_words (sample : List Word → ℕ → List Word) (all_words : List Word)
    (reviewed_word_ids : List ℕ) (count : ℕ) : List Word :=
  if count = 0 then []
  else
    let new_words := all_words.filter (fun w =>
      match w.word_id with
      | none => true
      | some wid => decide (wid ∉ reviewed_word_ids))
    if new_words = [] then []
    else sample new_words (min count new_words.length)

end pool_utils

/-- Lookup in the Python dict `{w["word_id"]: w for w in all_words if
w.get("word_id")}`: the last word with the given id wins. -/
def word_id_lookup (all_words : List Word) (wid : ℕ) : Option Word :=
  (all_words.filter (fun w => w.word_id = some wid)).getLast?

/-- `stm_state.build_stm_words`: keep the pairs of this exercise type
whose word has a card in the snapshot, and resolve them through the
lexicon lookup. -/
def build_stm_words (stm_set : List (ℕ × String)) (exercise_type : String)
    (all_cards : List CardStateSnapshot) (lookup_word : ℕ → Option Word) : List Word :=
  (stm_set.filter (fun p => decide (p.2 = exercise_type ∧
      ∃ c ∈ all_cards, c.word_id = some p.1))).filterMap
    (fun p => lookup_word p.1)

namespace word_builder

/-- `word_builder.SESSION_SIZE = 20`. -/
def SESSION_SIZE : ℕ := 20

/-- `word_builder.LTM_FRACTION = 0.75`. -/
def LTM_FRACTION : ℚ := 3/4

/-- The LTM loop of `word_builder.build_word_pools`: walk the due cards in
urgency order, stop at `ltm_target`, keep only cards whose word is in the
lexicon map. -/
def ltm_loop (lookup : Option ℕ → Option Word) (ltm_target : ℕ) :
    List PoolItem → List CardStateSnapshot → List PoolItem
  | acc, [] => acc
  | acc, c :: cs =>
    if ltm_target ≤ acc.length then acc
    else
      match lookup c.word_id with
      | some w => ltm_loop lookup ltm_target (acc ++ [⟨w, "ltm"⟩]) cs
      | none => ltm_loop lookup ltm_target acc cs

/-- The dict lookup `word_id_map.get(card.word_id)` (a `None` key is
never present). -/
def lookup_opt (all_words : List Word) : Option ℕ → Option Word
  | none => none
  | some wid => word_id_lookup all_words wid

/-- `word_builder.build_word_pools`: LTM (due cards up to
`SESSION_SIZE * LTM_FRACTION`), STM (from the STM set, excluding ids
already in LTM), NEW (a sample of unreviewed words). Returns the pools
`(ltm, stm, new)`. -/
def build_word_pools (sample : List Word → ℕ → List Word) (all_words : List Word)
    (all_cards : List CardStateSnapshot) (exercise_type : String)
    (stm_set : List (ℕ × String)) (r_threshold : ℚ) :
    List PoolItem × List PoolItem × List PoolItem :=
  let due_cards := pool_utils.due_cards_from_snapshot all_cards r_threshold
  let ltm_target := (⌊(SESSION_SIZE : ℚ) * LTM_FRACTION⌋).toNat
  let ltm_words := ltm_loop (lookup_opt all_words) ltm_target [] due_cards
  let stm_words := build_stm_words stm_set exercise_type all_cards
    (fun wid => word_id_lookup all_words wid)
  let ltm_ids := ltm_words.filterMap (fun item => item.word.word_id)
  let stm_items := (stm_words.filter (fun w =>
    match w.word_id with
    | some wid => decide (wid ∉ ltm_ids)
    | none => true)).map (fun w => PoolItem.mk w "stm")
  let reviewed_word_ids := all_cards.filterMap (fun c => c.word_id)
  let new_words := pool_utils.sample_new_words sample all_words reviewed_word_ids SESSION_SIZE
  let new_items := new_words.map (fun w => PoolItem.mk w "new")
  (ltm_words, stm_items, new_items)

/-- `word_builder.create_session`: build the pools, fill in order
LTM → STM → NEW up to `SESSION_SIZE`, shuffle, return the words. -/
def create_session (sample : List Word → ℕ → List Word)
    (shuffle : List PoolItem → List PoolItem) (all_words : List Word)
    (all_cards : List CardStateSnapshot) (exercise_type : String)
    (stm_set : List (ℕ × String)) : List Word :=
  let pools := build_word_pools sample all_words all_cards exercise_type stm_set R_TARGET
  let session_items := pool_utils.fill_in_order [pools.1, pools.2.1, pools.2.2] SESSION_SIZE
  (shuffle session_items).map (fun item => item.word)

end word_builder

namespace verb_builder

/-- Dict lookup in a card-state map reduced to `word_id ↦ retrievability`. -/
def map_find (m : List (ℕ × ℚ)) (wid : ℕ) : Option ℚ :=
  (m.find? (fun p => p.1 = wid)).map (fun p => p.2)

/-- The joint due test of `verb_builder._build_verb_pools`: due if either
tense has a card below the threshold. -/
def ltm_pred (perfectum_map past_map : List (ℕ × ℚ)) (r_threshold : ℚ) (wid : ℕ) : Prop :=
  (∃ r, map_find perfectum_map wid = some r ∧ r < r_threshold) ∨
  (∃ r, map_find past_map wid = some r ∧ r < r_threshold)

instance (pm pa : List (ℕ × ℚ)) (th : ℚ) (wid : ℕ) : Decidable (ltm_pred pm pa th wid) := by
  unfold ltm_pred
  infer_instance

/-- New iff no conjugation state in either tense. -/
def new_pred (perfectum_map past_map : List (ℕ × ℚ)) (wid : ℕ) : Prop :=
  map_find perfectum_map wid = none ∧ map_find past_map wid = none

instance (pm pa : List (ℕ × ℚ)) (wid : ℕ) : Decidable (new_pred pm pa wid) := by
  unfold new_pred
  infer_instance

/-- `verb_builder._build_verb_pools`: classify each verb (LTM, else NEW)
and independently collect STM; then drop from STM every id already in LTM
or NEW. Returns `(ltm, stm, new)`. -/
def build_verb_pools (verbs : List Word) (r_threshold : ℚ)
    (perfectum_map past_map : List (ℕ × ℚ))
    (stm_set_perfectum stm_set_past : List (ℕ × String)) :
    List PoolItem × List PoolItem × List PoolItem :=
  let stm_ids := ((stm_set_perfectum ++ stm_set_past).filter (fun p =>
    decide (p.2 = "verb_perfectum" ∨ p.2 = "verb_past_tense"))).map (fun p => p.1)
  let ltm_pool := (verbs.filter (fun v =>
    match v.word_id with
    | some wid => decide (ltm_pred perfectum_map past_map r_threshold wid)
    | none => false)).map (fun v => PoolItem.mk v "ltm")
  let new_pool := (verbs.filter (fun v =>
    match v.word_id with
    | some wid => decide (new_pred perfectum_map past_map wid ∧
        ¬ ltm_pred perfectum_map past_map r_threshold wid)
    | none => false)).map (fun v => PoolItem.mk v "new")
  let stm_pool0 := (verbs.filter (fun v =>
    match v.word_id with
    | some wid => decide (wid ∈ stm_ids)
    | none => false)).map (fun v => PoolItem.mk v "stm")
  let ltm_ids := ltm_pool.filterMap (fun v => v.word.word_id)
  let new_ids := new_pool.filterMap (fun v => v.word.word_id)
  let stm_pool := stm_pool0.filter (fun v =>
    match v.word.word_id with
    | some wid => decide (wid ∉ ltm_ids ∧ wid ∉ new_ids)
    | none => true)
  (ltm_pool, stm_pool, new_pool)

end verb_builder

namespace preposition_builder

/-- Launch-scoped pool state (`pool_types.PoolState`), with the word map
reduced to its key set and the pools to id lists. -/
structure PoolState where
  word_map_keys : List ℕ
  ltm : List ℕ
  stm : List ℕ
  new : List ℕ
  known : List ℕ
  ltm_scores : List (ℕ × ℚ)
deriving Repr

/-- `pool_state.ltm_scores.get(word_id, 1.0)`. -/
def scores_get (scores : List (ℕ × ℚ)) (wid : ℕ) : ℚ :=
  match scores.find? (fun p => p.1 = wid) with
  | some p => p.2
  | none => 1

/-- `preposition_builder.build_preposition_pool_state`, from its
snapshot inputs: the eligible-word keys, the `word_id ↦ R` rows of the
card snapshot (`r_by_id`), and the launch STM set. Rows outside the word
map are skipped; `R < R_TARGET` goes to LTM, the rest to KNOWN; eligible
words with no row are NEW; then every STM id is discarded from the other
three pools. -/
def build_preposition_pool_state (word_map_keys : List ℕ) (r_by_id : List (ℕ × ℚ))
    (stm_set : List (ℕ × String)) : PoolState :=
  let ltm0 : List ℕ := (r_by_id.filter (fun p =>
    decide (p.1 ∈ word_map_keys ∧ p.2 < R_TARGET))).map (fun p => p.1)
  let known0 : List ℕ := (r_by_id.filter (fun p =>
    decide (p.1 ∈ word_map_keys ∧ ¬ p.2 < R_TARGET))).map (fun p => p.1)
  let new0 : List ℕ := word_map_keys.filter (fun wid =>
    decide (¬ ∃ p ∈ r_by_id, p.1 = wid))
  let stm_ids : List ℕ := ((stm_set.filter (fun p =>
    decide (p.2 = "word_preposition" ∧ p.1 ∈ word_map_keys))).map (fun p => p.1)).dedup
  let ltm : List ℕ := ltm0.filter (fun wid => decide (wid ∉ stm_ids))
  let known : List ℕ := known0.filter (fun wid => decide (wid ∉ stm_ids))
  let new : List ℕ := new0.filter (fun wid => decide (wid ∉ stm_ids))
  let ltm_scores : List (ℕ × ℚ) := ltm.filterMap (fun wid =>
    (r_by_id.find? (fun p => p.1 = wid)).map (fun p => (wid, p.2)))
  { word_map_keys := word_map_keys, ltm := ltm, stm := stm_ids, new := new,
    known := known, ltm_scores := ltm_scores }

/-- Step 2 of `create_preposition_session`: append ids in the given order,
skipping ids already chosen, until the session is full. -/
def add_unique (target : ℕ) : List ℕ → List ℕ → List ℕ
  | session, [] => session
  | session, wid :: rest =>
    if target ≤ session.length then session
    else if wid ∈ session then add_unique target session rest
    else add_unique target (session ++ [wid]) rest

/-- Step 3 of `create_preposition_session` (the `if len(session_ids) <
session_size:` block sampling from NEW): append
`random.sample(new_ids, min(remaining, len(new_ids)))` when the session
is under-full and NEW is nonempty. -/
def step_new (sample_new : List ℕ → ℕ → List ℕ) (new : List ℕ) (session_size : ℕ)
    (s : List ℕ) : List ℕ :=
  if s.length < session_size ∧ new ≠ [] then
    s ++ sample_new new (min (session_size - s.length) new.length)
  else s

/-- Step 4 of `create_preposition_session`: append the prefix of the
not-yet-selected LTM ids, in urgency order. -/
def step_remaining_ltm (ltm_ids : List ℕ) (session_size : ℕ) (s : List ℕ) : List ℕ :=
  if s.length < session_size then
    let remaining_ltm_ids := ltm_ids.filter (fun wid => decide (wid ∉ s))
    if remaining_ltm_ids ≠ [] then s ++ remaining_ltm_ids.take (session_size - s.length)
    else s
  else s

/-- Step 5 of `create_preposition_session`: append a random sample of the
not-yet-selected KNOWN ids. -/
def step_known (sample_known : List ℕ → ℕ → List ℕ) (known : List ℕ) (session_size : ℕ)
    (s : List ℕ) : List ℕ :=
  if s.length < session_size then
    let known_ids := known.filter (fun wid => decide (wid ∉ s))
    if known_ids ≠ [] then
      s ++ sample_known known_ids (min (session_size - s.length) known_ids.length)
    else s
  else s

/-- `preposition_builder.create_preposition_session`: LTM in ascending-R
order up to `⌊session_size · ltm_fraction⌋`, then shuffled STM skipping
chosen ids, then a random sample of NEW, then the remaining LTM in order,
then a random sample of the not-yet-chosen KNOWN; finally resolve ids
through the word map and shuffle. Returns the word-id sequence of the
assembled session. -/
def create_preposition_session (shuffle_stm : List ℕ → List ℕ)
    (sample_new sample_known : List ℕ → ℕ → List ℕ) (shuffle_words : List ℕ → List ℕ)
    (pool : PoolState) (session_size : ℕ) (ltm_fraction : ℚ) : List ℕ :=
  let ltm_target := (⌊(session_size : ℚ) * ltm_fraction⌋).toNat
  let ltm_ids := pool.ltm.mergeSort (fun a b =>
    decide (scores_get pool.ltm_scores a ≤ scores_get pool.ltm_scores b))
  let s1 := ltm_ids.take ltm_target
  let s2 := add_unique session_size s1 (shuffle_stm pool.stm)
  let s3 := step_new sample_new pool.new session_size s2
  let s4 := step_remaining_ltm ltm_ids session_size s3
  let s5 := step_known sample_known pool.known session_size s4
  shuffle_words (s5.filter (fun wid => decide (wid ∈ pool.word_map_keys)))

end preposition_builder

/-! ### Concrete instances used in closed-form runs -/

/-- Identity stand-in for `random.shuffle` on id lists. -/
def id_shuffle (l : List ℕ) : List ℕ := l

/-- Take-first stand-in for `random.sample` on id lists. -/
def take_sample (l : List ℕ) (k : ℕ) : List ℕ := l.take k

/-- Identity stand-in for `random.shuffle` on pool items. -/
def id_shuffle_items (l : List PoolItem) : List PoolItem := l

/-- Take-first stand-in for `random.sample` on word lists. -/
def take_sample_words (l : List Word) (k : ℕ) : List Word := l.take k

/-- A mature card (`S = 4`, `D = D_eff = 5`, three past reviews, last LTM
review at the epoch instant) used for concrete scheduler runs. -/
def cardA : CardState :=
  { word_id := 1, word_lemma := "fiets", pos := "noun",
    exercise_type := "word_translation",
    stability := 4, difficulty := 5, d_eff := 5, review_count := 3,
    last_review_timestamp := 0, last_ltm_timestamp := some 0,
    ltm_review_date := some 0, stm_success_count_today := 0 }

/-- Twenty lexicon words with ids `1..20`. -/
def words20 : List Word := (List.range 20).map (fun i => ⟨some (i + 1)⟩)

/-- Twenty card snapshots for the words `1..20`, all fully due (`R = 0`). -/
def cards20 : List CardStateSnapshot := (List.range 20).map (fun i => ⟨some (i + 1), 0⟩)

/-- A small well-formed preposition pool snapshot: one LTM, one STM, one
NEW and two KNOWN ids, all in the word map. -/
def poolB : preposition_builder.PoolState :=
  { word_map_keys := [1, 2, 3, 4, 5], ltm := [1], stm := [2], new := [3],
    known := [4, 5], ltm_scores := [] }

/-- An AGAIN review of word 7 at the epoch instant. -/
def ev1 : ReviewEventRow :=
  { user_id := "ben", word_id := 7, exercise_type := "word_translation",
    feedback_grade := FeedbackGrade.AGAIN, timestamp := 0 }

/-- A later EASY review of the same word 7, one hour after `ev1`. -/
def ev2 : ReviewEventRow :=
  { user_id := "ben", word_id := 7, exercise_type := "word_translation",
    feedback_grade := FeedbackGrade.EASY, timestamp := 3600 }

theorem rexpQ_pos {x : ℚ} (hx : x < 0) : 0 < rexpQ x := by
  unfold rexpQ
  exact div_pos one_pos (by linarith)

theorem rexpQ_le_one {x : ℚ} (hx : x < 0) : rexpQ x ≤ 1 := by
  unfold rexpQ
  rw [div_le_one (by linarith)]
  linarith

/-! ### Claim C1 — purity of `process_review` -/

/-- Claim C1: `process_review(card, grade, now)` was claimed pure — no
clock access beyond `now`, the retrievability depending only on the card
and `now`. Refuted: `get_days_since_ltm_review` calls
`datetime.now(timezone.utc)`, so with identical `(card, grade, now)`
arguments the resulting stability differs between a run at wall-clock
instant `43200` and one at wall-clock instant `86400`. -/
theorem claim_C1_code_bug :
    (scheduler.process_review rexpQ 43200 cardA FeedbackGrade.AGAIN 172800).1.stability
      = 28/15 ∧
    (scheduler.process_review rexpQ 86400 cardA FeedbackGrade.AGAIN 172800).1.stability
      = 52/25 ∧
    (28/15 : ℚ) ≠ 52/25 := by
  refine ⟨?_, ?_, by norm_num⟩ <;>
  · simp only [scheduler.process_review, scheduler.apply_ltm_update_card,
      scheduler.apply_stm_update_card, ltm_updates.apply_ltm_update,
      ltm_updates.update_stability_on_failure, memory_state.is_ltm_event,
      memory_state.get_days_since_ltm_review, memory_state.calculate_retrievability,
      dateOf, rexpQ, cardA, S_MIN, K_FAIL]
    norm_num

/-! ### Claim C3 — stability monotone on LTM success -/

/-- Claim C3 counterexample: a mature card (`S = 10`, three reviews) with
`R = 0.995 ≥ 0.99` falls into the brand-new special case on a MEDIUM
success, and its stability collapses from `10` to
`max(S_MIN, S_MIN · 1.0 · 2.0) = 1 < 10`. -/
theorem claim_C3_counterexample :
    ltm_updates.update_stability_on_success 10 (199/200) 5 FeedbackGrade.MEDIUM false = 1 ∧
    (1 : ℚ) < 10 := by
  constructor
  · simp only [ltm_updates.update_stability_on_success, BASE_GAIN, S_MIN]
    norm_num
  · norm_num

/-- Claim C3, amended: on an LTM success to which the special case does
not apply (`review_count > 0` and `R < 0.99`), the new stability is at
least the old one, for every valid state (`S ≥ S_MIN`, `R ∈ [0, 0.99)`,
`D_eff ≥ D_MIN`). When the special case applies the new stability is the
fixed value `max(S_MIN, S_MIN · BASE_GAIN[grade] · 2.0)`, which can lie
below the old stability. -/
theorem claim_C3_amended (S R D_used : ℚ) (g : FeedbackGrade)
    (hS : S_MIN ≤ S) (hR0 : 0 ≤ R) (hR : R < 99/100) (hD : D_MIN ≤ D_used)
    (hg : g ≠ FeedbackGrade.AGAIN) :
    S ≤ ltm_updates.update_stability_on_success S R D_used g false := by
  have hgain : 0 < BASE_GAIN g := by
    cases g with
    | AGAIN => exact absurd rfl hg
    | HARD => norm_num [BASE_GAIN]
    | MEDIUM => norm_num [BASE_GAIN]
    | EASY => norm_num [BASE_GAIN]
  have hSpos : 0 < S := lt_of_lt_of_le (by norm_num [S_MIN]) hS
  have hfd : 0 < 1 / (1 + ALPHA * (D_used - 1)) := by
    have : (0:ℚ) < 1 + ALPHA * (D_used - 1) := by
      have : (0:ℚ) ≤ ALPHA * (D_used - 1) := by
        apply mul_nonneg (by norm_num [ALPHA])
        have := hD
        simp only [D_MIN] at this
        linarith
      linarith
    positivity
  have hdelta : 0 ≤ K * S * BASE_GAIN g * (1 - R) * (1 / (1 + ALPHA * (D_used - 1))) := by
    have h1 : (0:ℚ) ≤ 1 - R := by linarith
    have hK : (0:ℚ) < K := by norm_num [K]
    positivity
  unfold ltm_updates.update_stability_on_success
  rw [if_neg]
  · exact le_trans (by linarith) (le_max_right _ _)
  · push_neg
    exact ⟨by simp, by linarith⟩

/-- Concrete instance of `claim_C3_amended`: a MEDIUM success at `S = 4`,
`R = 1/2`, `D_eff = 5`. -/
theorem claim_C3_witness :
    (4 : ℚ) ≤ ltm_updates.update_stability_on_success 4 (1/2) 5 FeedbackGrade.MEDIUM false :=
  claim_C3_amended 4 (1/2) 5 FeedbackGrade.MEDIUM (by norm_num [S_MIN]) (by norm_num)
    (by norm_num) (by norm_num [D_MIN]) (by simp)

/-! ### Claim C4 — failure penalty -/

/-- Claim C4 counterexample: at `S = S_MIN = 0.5` and `R = 1 ≠ 0` the
AGAIN update leaves the stability unchanged
(`max(S_MIN, 0.5 · (1 - 0.6)) = S_MIN`), so "equality only when `R = 0`"
fails. -/
theorem claim_C4_counterexample :
    ltm_updates.update_stability_on_failure (1/2) 1 = 1/2 ∧ (1 : ℚ) ≠ 0 := by
  constructor
  · simp only [ltm_updates.update_stability_on_failure, S_MIN, K_FAIL]
    norm_num
  · norm_num

/-- Claim C4, amended: for every `S ≥ S_MIN` and `R ∈ [0, 1]`, an LTM
AGAIN review yields `S_new = max(S_MIN, S · (1 - K_FAIL · R))`, hence
`S_new ≤ S`, with equality exactly when `R = 0` or `S = S_MIN` (the floor
can absorb the penalty at minimal stability). -/
theorem claim_C4_amended (S R : ℚ) (hS : S_MIN ≤ S) (hR0 : 0 ≤ R) (hR1 : R ≤ 1) :
    ltm_updates.update_stability_on_failure S R = max S_MIN (S * (1 - K_FAIL * R)) ∧
    ltm_updates.update_stability_on_failure S R ≤ S ∧
    (ltm_updates.update_stability_on_failure S R = S ↔ (R = 0 ∨ S = S_MIN)) := by
  have hSpos : 0 < S := lt_of_lt_of_le (by norm_num [S_MIN]) hS
  have hkR : 0 ≤ K_FAIL * R := mul_nonneg (by norm_num [K_FAIL]) hR0
  have hle : S * (1 - K_FAIL * R) ≤ S := by nlinarith
  refine ⟨rfl, ?_, ?_⟩
  · exact max_le hS hle
  · constructor
    · intro h
      by_contra hc
      push_neg at hc
      obtain ⟨hR0ne, hSne⟩ := hc
      have hRpos : 0 < R := lt_of_le_of_ne hR0 (Ne.symm hR0ne)
      have hSgt : S_MIN < S := lt_of_le_of_ne hS (Ne.symm hSne)
      have hlt : S * (1 - K_FAIL * R) < S := by nlinarith [mul_pos (show (0:ℚ) < K_FAIL by norm_num [K_FAIL]) hRpos]
      have : ltm_updates.update_stability_on_failure S R < S :=
        max_lt hSgt hlt
      exact absurd h (ne_of_lt this)
    · intro h
      rcases h with h | h
      · simp only [ltm_updates.update_stability_on_failure, h]
        rw [mul_zero, sub_zero, mul_one]
        exact max_eq_right hS
      · subst h
        simp only [ltm_updates.update_stability_on_failure]
        exact max_eq_left hle
/-- Concrete instance of `claim_C4_amended` at `S = 4`, `R = 1/2`. -/
theorem claim_C4_witness :
    ltm_updates.update_stability_on_failure 4 (1/2) = max S_MIN (4 * (1 - K_FAIL * (1/2))) ∧
    ltm_updates.update_stability_on_failure 4 (1/2) ≤ 4 ∧
    (ltm_updates.update_stability_on_failure 4 (1/2) = 4 ↔ ((1/2 : ℚ) = 0 ∨ (4:ℚ) = S_MIN)) :=
  claim_C4_amended 4 (1/2) (by norm_num [S_MIN]) (by norm_num) (by norm_num)

/-! ### Claim C9 — the KNOWN_NO_SCORE flag after persistence -/

/-- Claim C9: a KNOWN-pool item is logged with the kind flag `2`
(`KNOWN_NO_SCORE`) and its card state is copied unchanged into the event's
`_after` snapshot (the state is not mutated); but
`batch_log_review_events` persists the flag as
`1 if event['is_ltm_event'] else 0`, so after persistence the flag equals
`1` — the LTM value — and the three-way distinction claimed by the spec
(and by the `models.py` column comment `1 for LTM, 0 for STM, 2 for KNOWN
no-score fallback`) is lost. -/
theorem claim_C9_code_bug (fexp : ℚ → ℚ) (wall_clock_now : ℚ) (card : CardState)
    (g : FeedbackGrade) (lat : Option ℤ) (sid spos : Option ℕ) (pm : Option String) :
    (build_known_no_score_event fexp wall_clock_now card g lat sid spos pm).is_ltm_event = 2 ∧
    (build_known_no_score_event fexp wall_clock_now card g lat sid spos pm).stability_after
      = card.stability ∧
    (build_known_no_score_event fexp wall_clock_now card g lat sid spos pm).difficulty_after
      = card.difficulty ∧
    (build_known_no_score_event fexp wall_clock_now card g lat sid spos pm).d_eff_after
      = card.d_eff ∧
    persisted_is_ltm_event
      (build_known_no_score_event fexp wall_clock_now card g lat sid spos pm).is_ltm_event
      = persisted_is_ltm_event 1 := by
  refine ⟨rfl, rfl, rfl, rfl, ?_⟩
  simp [build_known_no_score_event, persisted_is_ltm_event]

/-! ### Claim C5 — STM frame conditions -/

/-- Claim C5 counterexample: a same-day AGAIN review is classified STM,
yet `process_review` changes `review_count` (from 3 to 4) in addition to
`last_review_timestamp` — so "on AGAIN only `last_review_timestamp`
changes" fails. -/
theorem claim_C5_counterexample :
    memory_state.is_ltm_event cardA.last_ltm_timestamp 3600 = false ∧
    (scheduler.process_review rexpQ 43200 cardA FeedbackGrade.AGAIN 3600).1.review_count = 4 ∧
    cardA.review_count = 3 := by
  refine ⟨?_, ?_, rfl⟩
  · simp only [memory_state.is_ltm_event, cardA, dateOf]
    norm_num
  · simp only [scheduler.process_review, scheduler.apply_stm_update_card,
      scheduler.apply_ltm_update_card, memory_state.is_ltm_event, cardA, dateOf,
      stm_updates.should_update_d_eff]
    norm_num

/-- Claim C5, amended: every STM review leaves `S`, `D` and
`last_ltm_timestamp` unchanged, and an STM AGAIN changes exactly
`last_review_timestamp` and `review_count` (the latter is incremented on
every review, contrary to the claim's "only `last_review_timestamp`
changes"). -/
theorem claim_C5_amended (fexp : ℚ → ℚ) (wall : ℚ) (card : CardState)
    (g : FeedbackGrade) (ts : ℚ)
    (h : memory_state.is_ltm_event card.last_ltm_timestamp ts = false) :
    (scheduler.process_review fexp wall card g ts).1.stability = card.stability ∧
    (scheduler.process_review fexp wall card g ts).1.difficulty = card.difficulty ∧
    (scheduler.process_review fexp wall card g ts).1.last_ltm_timestamp
      = card.last_ltm_timestamp ∧
    (g = FeedbackGrade.AGAIN →
      (scheduler.process_review fexp wall card g ts).1 =
        { card with last_review_timestamp := ts,
                    review_count := card.review_count + 1 }) := by
  simp only [scheduler.process_review, h, if_false, Bool.false_eq_true]
  cases hc : stm_updates.should_update_d_eff g with
  | false =>
    refine ⟨?_, ?_, ?_, fun hg => ?_⟩ <;>
      simp only [scheduler.apply_stm_update_card, hc, if_false, Bool.false_eq_true]
  | true =>
    refine ⟨?_, ?_, ?_, fun hg => ?_⟩ <;>
      simp only [scheduler.apply_stm_update_card, hc, if_true]
    subst hg
    exact absurd hc (by simp [stm_updates.should_update_d_eff])

/-- Concrete instance of `claim_C5_amended`: a same-day MEDIUM review of
`cardA` at the epoch instant. -/
theorem claim_C5_witness :
    (scheduler.process_review rexpQ 43200 cardA FeedbackGrade.MEDIUM 0).1.stability
      = cardA.stability ∧
    (scheduler.process_review rexpQ 43200 cardA FeedbackGrade.MEDIUM 0).1.difficulty
      = cardA.difficulty ∧
    (scheduler.process_review rexpQ 43200 cardA FeedbackGrade.MEDIUM 0).1.last_ltm_timestamp
      = cardA.last_ltm_timestamp ∧
    (FeedbackGrade.MEDIUM = FeedbackGrade.AGAIN →
      (scheduler.process_review rexpQ 43200 cardA FeedbackGrade.MEDIUM 0).1 =
        { cardA with last_review_timestamp := 0,
                     review_count := cardA.review_count + 1 }) :=
  claim_C5_amended rexpQ 43200 cardA FeedbackGrade.MEDIUM 0
    (by simp [memory_state.is_ltm_event, cardA, dateOf])

/-! ### Claim C2 — bounds on the effective difficulty -/

theorem compute_d_floor_bounds (D R : ℚ) :
    D_MIN ≤ ltm_updates.compute_d_floor D R ∧ ltm_updates.compute_d_floor D R ≤ D_MAX := by
  unfold ltm_updates.compute_d_floor
  constructor
  · exact le_max_left _ _
  · exact max_le (by norm_num [D_MIN, D_MAX]) (min_le_left _ _)

theorem update_difficulty_bounds (D R : ℚ) (g : FeedbackGrade) :
    D_MIN ≤ ltm_updates.update_difficulty D R g ∧
    ltm_updates.update_difficulty D R g ≤ D_MAX := by
  unfold ltm_updates.update_difficulty
  constructor
  · exact le_max_left _ _
  · exact max_le (by norm_num [D_MIN, D_MAX]) (min_le_left _ _)

theorem lambda_m_bounds (m : ℕ) :
    0 ≤ (1/2 : ℚ) / ((m : ℚ) + 1) ∧ (1/2 : ℚ) / ((m : ℚ) + 1) ≤ 1 := by
  have hm : (0:ℚ) < (m : ℚ) + 1 := by positivity
  constructor
  · positivity
  · rw [div_le_one hm]
    have : (0:ℚ) ≤ (m : ℚ) := Nat.cast_nonneg m
    linarith

theorem apply_stm_success_update_bounds (d_eff d_floor : ℚ) (m : ℕ)
    (h1 : D_MIN ≤ d_floor) (h2 : d_floor ≤ D_MAX) (h3 : d_eff ≤ D_MAX) :
    D_MIN ≤ stm_updates.apply_stm_success_update d_eff d_floor m ∧
    stm_updates.apply_stm_success_update d_eff d_floor m ≤ D_MAX := by
  obtain ⟨hl0, hl1⟩ := lambda_m_bounds m
  unfold stm_updates.apply_stm_success_update
  constructor
  · exact le_trans h1 (le_max_left _ _)
  · refine max_le h2 ?_
    nlinarith [mul_nonneg (sub_nonneg.mpr hl1) (sub_nonneg.mpr h3),
      mul_nonneg hl0 (sub_nonneg.mpr h2)]

/-- Claim C2 counterexample: a same-day (STM) HARD success pushes `D_eff`
above `D`: starting from `D = D_eff = 5`, the review yields
`D_eff = 1132/225 > 5 = D`, because the STM floor is the counterfactual
HARD difficulty `clip(D + ETA·(1-R)·U_RATING[HARD])`, which lies above `D`
whenever `R < 1`. So `D_eff ∈ [D_MIN, D]` (and `D_eff ≤ D`) fails. -/
theorem claim_C2_counterexample :
    (scheduler.process_review rexpQ 43200 cardA FeedbackGrade.HARD 3600).1.d_eff
      = 1132/225 ∧
    (scheduler.process_review rexpQ 43200 cardA FeedbackGrade.HARD 3600).1.difficulty
      = 5 ∧
    (5 : ℚ) < 1132/225 := by
  refine ⟨?_, ?_, by norm_num⟩ <;>
  · simp only [scheduler.process_review, scheduler.apply_stm_update_card,
      scheduler.apply_ltm_update_card, memory_state.is_ltm_event,
      memory_state.get_days_since_ltm_review, memory_state.calculate_retrievability,
      ltm_updates.compute_d_floor, stm_updates.apply_stm_success_update,
      stm_updates.should_update_d_eff, cardA, dateOf, rexpQ,
      D_MIN, D_MAX, ETA, U_RATING]
    norm_num

/-- Claim C2, amended: after every transition of `process_review` (LTM or
STM, every grade, for every exp model and wall-clock instant), the
resulting `D_eff` stays within `[D_MIN, D_MAX]` provided the incoming one
was; and after every LTM transition `D_eff = D`. The claimed `D_eff ≤ D`
does not hold in general (STM successes can raise `D_eff` above `D`, up
to the clipped HARD-counterfactual floor). -/
theorem claim_C2_amended (fexp : ℚ → ℚ) (wall : ℚ) (card : CardState)
    (g : FeedbackGrade) (ts : ℚ)
    (hd0 : D_MIN ≤ card.d_eff) (hd1 : card.d_eff ≤ D_MAX) :
    (D_MIN ≤ (scheduler.process_review fexp wall card g ts).1.d_eff ∧
      (scheduler.process_review fexp wall card g ts).1.d_eff ≤ D_MAX) ∧
    (memory_state.is_ltm_event card.last_ltm_timestamp ts = true →
      (scheduler.process_review fexp wall card g ts).1.d_eff
        = (scheduler.process_review fexp wall card g ts).1.difficulty) := by
  cases h : memory_state.is_ltm_event card.last_ltm_timestamp ts with
  | true =>
    refine ⟨?_, fun hl => ?_⟩ <;>
      simp only [scheduler.process_review, h, if_true, scheduler.apply_ltm_update_card,
        ltm_updates.apply_ltm_update]
    exact update_difficulty_bounds _ _ _
  | false =>
    simp only [scheduler.process_review, h, if_false, Bool.false_eq_true,
      scheduler.apply_stm_update_card]
    cases hc : stm_updates.should_update_d_eff g with
    | false =>
      simp only [if_false, Bool.false_eq_true]
      exact ⟨⟨hd0, hd1⟩, fun hl => by simp [h] at hl⟩
    | true =>
      simp only [if_true]
      obtain ⟨hf0, hf1⟩ := compute_d_floor_bounds card.difficulty
        (memory_state.calculate_retrievability fexp card.stability
          (memory_state.get_days_since_ltm_review wall card.last_ltm_timestamp))
      exact ⟨apply_stm_success_update_bounds _ _ _ hf0 hf1 hd1,
        fun hl => by simp [h] at hl⟩

/-- Concrete instance of `claim_C2_amended`: a next-day EASY review of
`cardA`. -/
theorem claim_C2_witness :
    (D_MIN ≤ (scheduler.process_review rexpQ 129600 cardA FeedbackGrade.EASY 129600).1.d_eff ∧
      (scheduler.process_review rexpQ 129600 cardA FeedbackGrade.EASY 129600).1.d_eff ≤ D_MAX) ∧
    (memory_state.is_ltm_event cardA.last_ltm_timestamp 129600 = true →
      (scheduler.process_review rexpQ 129600 cardA FeedbackGrade.EASY 129600).1.d_eff
        = (scheduler.process_review rexpQ 129600 cardA FeedbackGrade.EASY 129600).1.difficulty) :=
  claim_C2_amended rexpQ 129600 cardA FeedbackGrade.EASY 129600
    (by norm_num [cardA, D_MIN]) (by norm_num [cardA, D_MAX])

/-! ### Session assembly helper lemmas -/

namespace preposition_builder

theorem add_unique_append_take (t : ℕ) (l : List ℕ) : ∀ (acc : List ℕ),
    acc.length ≤ t → (∀ x ∈ l, x ∉ acc) → l.Nodup →
    add_unique t acc l = acc ++ l.take (t - acc.length) := by
  induction l with
  | nil => intro acc _ _ _; simp [add_unique]
  | cons x xs ih =>
    intro acc hlen hd hnd
    by_cases hle : t ≤ acc.length
    · have heq : acc.length = t := le_antisymm hlen hle
      simp [add_unique, hle, heq]
    · push_neg at hle
      have hx : x ∉ acc := hd x (List.mem_cons_self x xs)
      simp only [add_unique, if_neg (not_le.mpr hle), if_neg hx]
      rw [ih (acc ++ [x]) (by simp; omega) ?_ hnd.of_cons]
      · have ht : t - acc.length = (t - (acc.length + 1)) + 1 := by omega
        rw [ht, List.take_succ_cons]
        simp
      · intro y hy
        simp only [List.mem_append, List.mem_singleton]
        rintro (hya | hyx)
        · exact hd y (List.mem_cons_of_mem x hy) hya
        · exact (List.nodup_cons.mp hnd).1 (hyx ▸ hy)

theorem add_unique_nodup (t : ℕ) (l : List ℕ) : ∀ (acc : List ℕ),
    acc.Nodup → (add_unique t acc l).Nodup := by
  induction l with
  | nil => intro acc h; simpa [add_unique]
  | cons x xs ih =>
    intro acc h
    simp only [add_unique]
    by_cases h1 : t ≤ acc.length
    · rw [if_pos h1]
      exact h
    · rw [if_neg h1]
      by_cases h2 : x ∈ acc
      · rw [if_pos h2]
        exact ih acc h
      · rw [if_neg h2]
        refine ih (acc ++ [x]) ?_
        rw [List.nodup_append]
        refine ⟨h, List.nodup_singleton x, ?_⟩
        intro a ha hax
        simp only [List.mem_singleton] at hax
        subst hax
        exact h2 ha

theorem add_unique_mem (t : ℕ) (l : List ℕ) : ∀ (acc : List ℕ) (y : ℕ),
    y ∈ add_unique t acc l → y ∈ acc ∨ y ∈ l := by
  induction l with
  | nil => intro acc y hy; simp only [add_unique] at hy; exact Or.inl hy
  | cons x xs ih =>
    intro acc y hy
    simp only [add_unique] at hy
    split at hy
    · exact Or.inl hy
    · split at hy
      · rcases ih acc y hy with h | h
        · exact Or.inl h
        · exact Or.inr (List.mem_cons_of_mem x h)
      · rcases ih (acc ++ [x]) y hy with h | h
        · rcases List.mem_append.mp h with h | h
          · exact Or.inl h
          · simp only [List.mem_singleton] at h
            exact Or.inr (h ▸ List.mem_cons_self x xs)
        · exact Or.inr (List.mem_cons_of_mem x h)

theorem mem_add_unique (t : ℕ) (l : List ℕ) : ∀ (acc : List ℕ) (y : ℕ),
    y ∈ acc → y ∈ add_unique t acc l := by
  induction l with
  | nil => intro acc y hy; simpa [add_unique]
  | cons x xs ih =>
    intro acc y hy
    simp only [add_unique]
    split
    · exact hy
    · split
      · exact ih acc y hy
      · exact ih (acc ++ [x]) y (List.mem_append_left _ hy)

end preposition_builder

namespace preposition_builder

theorem subperm_nodup {l1 l2 : List ℕ} (h : l1.Subperm l2) (h2 : l2.Nodup) : l1.Nodup := by
  obtain ⟨l, hp, hsl⟩ := h
  exact hp.nodup (hsl.nodup h2)

theorem step_new_length (sample_new : List ℕ → ℕ → List ℕ) (new : List ℕ) (N : ℕ)
    (s : List ℕ) (hs : s.length ≤ N)
    (hlen : ∀ l k, k ≤ l.length → (sample_new l k).length = k) :
    (step_new sample_new new N s).length = s.length + min (N - s.length) new.length := by
  simp only [step_new]
  by_cases h : s.length < N ∧ new ≠ []
  · rw [if_pos h, List.length_append, hlen _ _ (min_le_right _ _)]
  · rw [if_neg h]
    push_neg at h
    by_cases h1 : s.length < N
    · have hnew := h h1
      simp [hnew]
    · have : s.length = N := le_antisymm hs (not_lt.mp h1)
      omega

theorem step_new_subset (sample_new : List ℕ → ℕ → List ℕ) (new : List ℕ) (N : ℕ)
    (s : List ℕ) (hsub : ∀ l k, (sample_new l k).Subperm l) :
    ∀ x ∈ step_new sample_new new N s, x ∈ s ∨ x ∈ new := by
  simp only [step_new]
  intro x hx
  split at hx
  · rcases List.mem_append.mp hx with h | h
    · exact Or.inl h
    · exact Or.inr ((hsub _ _).subset h)
  · exact Or.inl hx

theorem step_new_mem (sample_new : List ℕ → ℕ → List ℕ) (new : List ℕ) (N : ℕ)
    (s : List ℕ) (x : ℕ) (hx : x ∈ s) : x ∈ step_new sample_new new N s := by
  simp only [step_new]
  split
  · exact List.mem_append_left _ hx
  · exact hx

theorem step_new_nodup (sample_new : List ℕ → ℕ → List ℕ) (new : List ℕ) (N : ℕ)
    (s : List ℕ) (hsub : ∀ l k, (sample_new l k).Subperm l)
    (hs : s.Nodup) (hn : new.Nodup) (hd : ∀ x ∈ new, x ∉ s) :
    (step_new sample_new new N s).Nodup := by
  simp only [step_new]
  split
  · rw [List.nodup_append]
    refine ⟨hs, subperm_nodup (hsub new _) hn, ?_⟩
    intro a ha hax
    exact hd a ((hsub _ _).subset hax) ha
  · exact hs

theorem step_remaining_ltm_length (ltm_ids : List ℕ) (N : ℕ) (s : List ℕ)
    (hs : s.length ≤ N) :
    (step_remaining_ltm ltm_ids N s).length
      = s.length + min (N - s.length) (ltm_ids.filter (fun wid => decide (wid ∉ s))).length := by
  simp only [step_remaining_ltm]
  by_cases h1 : s.length < N
  · rw [if_pos h1]
    by_cases h2 : ltm_ids.filter (fun wid => decide (wid ∉ s)) ≠ []
    · rw [if_pos h2, List.length_append, List.length_take]
    · rw [if_neg h2]
      push_neg at h2
      rw [h2]
      simp
  · rw [if_neg h1]
    have : s.length = N := le_antisymm hs (not_lt.mp h1)
    omega

theorem step_remaining_ltm_subset (ltm_ids : List ℕ) (N : ℕ) (s : List ℕ) :
    ∀ x ∈ step_remaining_ltm ltm_ids N s, x ∈ s ∨ x ∈ ltm_ids := by
  simp only [step_remaining_ltm]
  intro x hx
  split at hx
  · split at hx
    · rcases List.mem_append.mp hx with h | h
      · exact Or.inl h
      · exact Or.inr (List.mem_of_mem_filter (List.take_subset _ _ h))
    · exact Or.inl hx
  · exact Or.inl hx

theorem step_remaining_ltm_nodup (ltm_ids : List ℕ) (N : ℕ) (s : List ℕ)
    (hs : s.Nodup) (hl : ltm_ids.Nodup) : (step_remaining_ltm ltm_ids N s).Nodup := by
  simp only [step_remaining_ltm]
  split
  · split
    · rw [List.nodup_append]
      refine ⟨hs, (List.take_sublist _ _).nodup (hl.filter _), ?_⟩
      intro a ha hax
      have := List.of_mem_filter (List.take_subset _ _ hax)
      simp only [decide_eq_true_eq] at this
      exact this ha
    · exact hs
  · exact hs

theorem step_known_length (sample_known : List ℕ → ℕ → List ℕ) (known : List ℕ)
    (N : ℕ) (s : List ℕ) (hs : s.length ≤ N)
    (hlen : ∀ l k, k ≤ l.length → (sample_known l k).length = k) :
    (step_known sample_known known N s).length
      = s.length + min (N - s.length) (known.filter (fun wid => decide (wid ∉ s))).length := by
  simp only [step_known]
  by_cases h1 : s.length < N
  · rw [if_pos h1]
    by_cases h2 : known.filter (fun wid => decide (wid ∉ s)) ≠ []
    · rw [if_pos h2, List.length_append, hlen _ _ (min_le_right _ _)]
    · rw [if_neg h2]
      push_neg at h2
      rw [h2]
      simp
  · rw [if_neg h1]
    have : s.length = N := le_antisymm hs (not_lt.mp h1)
    omega

theorem step_known_subset (sample_known : List ℕ → ℕ → List ℕ) (known : List ℕ)
    (N : ℕ) (s : List ℕ) (hsub : ∀ l k, (sample_known l k).Subperm l) :
    ∀ x ∈ step_known sample_known known N s, x ∈ s ∨ x ∈ known := by
  simp only [step_known]
  intro x hx
  split at hx
  · split at hx
    · rcases List.mem_append.mp hx with h | h
      · exact Or.inl h
      · exact Or.inr (List.mem_of_mem_filter ((hsub _ _).subset h))
    · exact Or.inl hx
  · exact Or.inl hx

theorem step_known_nodup (sample_known : List ℕ → ℕ → List ℕ) (known : List ℕ)
    (N : ℕ) (s : List ℕ) (hsub : ∀ l k, (sample_known l k).Subperm l)
    (hs : s.Nodup) (hk : known.Nodup) : (step_known sample_known known N s).Nodup := by
  simp only [step_known]
  split
  · split
    · rw [List.nodup_append]
      refine ⟨hs, subperm_nodup (hsub _ _) (hk.filter _), ?_⟩
      intro a ha hax
      have := List.of_mem_filter ((hsub _ _).subset hax)
      simp only [decide_eq_true_eq] at this
      exact this ha
    · exact hs
  · exact hs

end preposition_builder

namespace preposition_builder

/-- Master property of `create_preposition_session` for a well-formed pool
snapshot (duplicate-free pairwise-disjoint pools drawn from the word map)
and well-behaved randomness (`shuffle` permutes, `sample k` draws `k`
distinct elements without replacement): the assembled session has exactly
`min(session_size, |ltm| + |stm| + |new| + |known|)` items and no
duplicate word ids. -/
theorem create_preposition_session_spec
    (shuffle_stm : List ℕ → List ℕ) (sample_new sample_known : List ℕ → ℕ → List ℕ)
    (shuffle_words : List ℕ → List ℕ) (pool : PoolState) (N : ℕ) (f : ℚ)
    (hf1 : f ≤ 1)
    (hshs : ∀ l, (shuffle_stm l).Perm l)
    (hsnl : ∀ l k, k ≤ l.length → (sample_new l k).length = k)
    (hsns : ∀ l k, (sample_new l k).Subperm l)
    (hskl : ∀ l k, k ≤ l.length → (sample_known l k).length = k)
    (hsks : ∀ l k, (sample_known l k).Subperm l)
    (hshw : ∀ l, (shuffle_words l).Perm l)
    (hndL : pool.ltm.Nodup) (hndS : pool.stm.Nodup) (hndN : pool.new.Nodup)
    (hndK : pool.known.Nodup)
    (hSL : ∀ x ∈ pool.stm, x ∉ pool.ltm)
    (hNL : ∀ x ∈ pool.new, x ∉ pool.ltm) (hNS : ∀ x ∈ pool.new, x ∉ pool.stm)
    (hKL : ∀ x ∈ pool.known, x ∉ pool.ltm) (hKS : ∀ x ∈ pool.known, x ∉ pool.stm)
    (hKN : ∀ x ∈ pool.known, x ∉ pool.new)
    (hsub : ∀ x, (x ∈ pool.ltm ∨ x ∈ pool.stm ∨ x ∈ pool.new ∨ x ∈ pool.known) →
      x ∈ pool.word_map_keys) :
    (create_preposition_session shuffle_stm sample_new sample_known shuffle_words
        pool N f).length
      = min N (pool.ltm.length + pool.stm.length + pool.new.length + pool.known.length) ∧
    (create_preposition_session shuffle_stm sample_new sample_known shuffle_words
        pool N f).Nodup := by
  have hL : (pool.ltm.mergeSort (fun a b =>
      decide (scores_get pool.ltm_scores a ≤ scores_get pool.ltm_scores b))).Perm pool.ltm :=
    List.mergeSort_perm _ _
  set ltm_ids := pool.ltm.mergeSort (fun a b =>
    decide (scores_get pool.ltm_scores a ≤ scores_get pool.ltm_scores b)) with hids
  have hndLs : ltm_ids.Nodup := hL.symm.nodup hndL
  set t1 := (⌊(N : ℚ) * f⌋).toNat with ht1
  have ht1N : t1 ≤ N := by
    rw [ht1, Int.toNat_le]
    calc ⌊(N : ℚ) * f⌋ ≤ ⌊(N : ℚ)⌋ :=
          Int.floor_le_floor (mul_le_of_le_one_right (Nat.cast_nonneg N) hf1)
      _ = (N : ℤ) := Int.floor_natCast N
  set s1 := ltm_ids.take t1 with hs1
  have hn1 : s1.length = min t1 pool.ltm.length := by
    rw [hs1, List.length_take, hL.length_eq]
  have hs1L : ∀ x ∈ s1, x ∈ pool.ltm := fun x hx =>
    hL.subset (List.take_subset _ _ hx)
  have hs1nd : s1.Nodup := (List.take_sublist _ _).nodup hndLs
  have hs1len : s1.length ≤ N := by rw [hn1]; omega
  -- step 2: STM
  have hshp : (shuffle_stm pool.stm).Perm pool.stm := hshs pool.stm
  have hshnd : (shuffle_stm pool.stm).Nodup := hshp.symm.nodup hndS
  have hdstm : ∀ x ∈ shuffle_stm pool.stm, x ∉ s1 := fun x hx hxs1 =>
    hSL x (hshp.subset hx) (hs1L x hxs1)
  set s2 := add_unique N s1 (shuffle_stm pool.stm) with hs2
  have hs2eq : s2 = s1 ++ (shuffle_stm pool.stm).take (N - s1.length) :=
    add_unique_append_take N _ s1 hs1len hdstm hshnd
  have hn2 : s2.length = s1.length + min (N - s1.length) pool.stm.length := by
    simp only [hs2eq, List.length_append, List.length_take, hshp.length_eq]
  have hs2len : s2.length ≤ N := by rw [hn2]; omega
  have hs2sub : ∀ x ∈ s2, x ∈ s1 ∨ x ∈ pool.stm := by
    intro x hx
    rw [hs2eq] at hx
    rcases List.mem_append.mp hx with h | h
    · exact Or.inl h
    · exact Or.inr (hshp.subset (List.take_subset _ _ h))
  have hs1s2 : ∀ x ∈ s1, x ∈ s2 := by
    intro x hx
    rw [hs2eq]
    exact List.mem_append_left _ hx
  have hs2nd : s2.Nodup := add_unique_nodup N _ s1 hs1nd
  -- step 3: NEW
  set s3 := step_new sample_new pool.new N s2 with hs3
  have hn3 : s3.length = s2.length + min (N - s2.length) pool.new.length :=
    step_new_length _ _ _ _ hs2len hsnl
  have hs3len : s3.length ≤ N := by rw [hn3]; omega
  have hs3sub : ∀ x ∈ s3, x ∈ s1 ∨ x ∈ pool.stm ∨ x ∈ pool.new := by
    intro x hx
    rcases step_new_subset _ _ _ _ hsns x hx with h | h
    · rcases hs2sub x h with h1 | h1
      · exact Or.inl h1
      · exact Or.inr (Or.inl h1)
    · exact Or.inr (Or.inr h)
  have hs3nd : s3.Nodup := by
    refine step_new_nodup _ _ _ _ hsns hs2nd hndN ?_
    intro x hx hxs
    rcases hs2sub x hxs with h | h
    · exact hNL x hx (hs1L x h)
    · exact hNS x hx h
  have hs1s3 : ∀ x ∈ s1, x ∈ s3 := fun x hx => step_new_mem _ _ _ _ x (hs1s2 x hx)
  -- step 4: remaining LTM; the not-yet-selected LTM ids are exactly the
  -- dropped tail of the sorted LTM list
  have hfilter : ltm_ids.filter (fun wid => decide (wid ∉ s3)) = ltm_ids.drop t1 := by
    conv_lhs => rw [← List.take_append_drop t1 ltm_ids]
    rw [List.filter_append]
    have h1 : (ltm_ids.take t1).filter (fun wid => decide (wid ∉ s3)) = [] := by
      rw [List.filter_eq_nil_iff]
      intro a ha
      simp only [decide_eq_true_eq, not_not]
      exact hs1s3 a ha
    have h2 : (ltm_ids.drop t1).filter (fun wid => decide (wid ∉ s3)) = ltm_ids.drop t1 := by
      rw [List.filter_eq_self]
      intro a ha
      simp only [decide_eq_true_eq]
      intro hs
      have haltm : a ∈ pool.ltm := hL.subset (List.drop_subset _ _ ha)
      rcases hs3sub a hs with h | h | h
      · exact (List.disjoint_take_drop hndLs le_rfl) h ha
      · exact hSL a h haltm
      · exact hNL a h haltm
    rw [h1, h2, List.nil_append]
  set s4 := step_remaining_ltm ltm_ids N s3 with hs4
  have hn4 : s4.length = s3.length + min (N - s3.length) (pool.ltm.length - t1) := by
    rw [hs4, step_remaining_ltm_length _ _ _ hs3len, hfilter, List.length_drop, hL.length_eq]
  have hs4len : s4.length ≤ N := by rw [hn4]; omega
  have hs4sub : ∀ x ∈ s4, x ∈ pool.ltm ∨ x ∈ pool.stm ∨ x ∈ pool.new := by
    intro x hx
    rcases step_remaining_ltm_subset _ _ _ x hx with h | h
    · rcases hs3sub x h with h1 | h1 | h1
      · exact Or.inl (hs1L x h1)
      · exact Or.inr (Or.inl h1)
      · exact Or.inr (Or.inr h1)
    · exact Or.inl (hL.subset h)
  have hs4nd : s4.Nodup := step_remaining_ltm_nodup _ _ _ hs3nd hndLs
  -- step 5: KNOWN; no KNOWN id has been selected yet
  have hkfilter : pool.known.filter (fun wid => decide (wid ∉ s4)) = pool.known := by
    rw [List.filter_eq_self]
    intro a ha
    simp only [decide_eq_true_eq]
    intro hs
    rcases hs4sub a hs with h | h | h
    exacts [hKL a ha h, hKS a ha h, hKN a ha h]
  set s5 := step_known sample_known pool.known N s4 with hs5
  have hn5 : s5.length = s4.length + min (N - s4.length) pool.known.length := by
    rw [hs5, step_known_length _ _ _ _ hs4len hskl, hkfilter]
  have hs5nd : s5.Nodup := step_known_nodup _ _ _ _ hsks hs4nd hndK
  have hs5sub : ∀ x ∈ s5, x ∈ pool.word_map_keys := by
    intro x hx
    rcases step_known_subset _ _ _ _ hsks x hx with h | h
    · rcases hs4sub x h with h1 | h1 | h1
      · exact hsub x (Or.inl h1)
      · exact hsub x (Or.inr (Or.inl h1))
      · exact hsub x (Or.inr (Or.inr (Or.inl h1)))
    · exact hsub x (Or.inr (Or.inr (Or.inr h)))
  have hfil : s5.filter (fun wid => decide (wid ∈ pool.word_map_keys)) = s5 := by
    rw [List.filter_eq_self]
    intro a ha
    simp only [decide_eq_true_eq]
    exact hs5sub a ha
  have hgoal : create_preposition_session shuffle_stm sample_new sample_known
      shuffle_words pool N f
      = shuffle_words (s5.filter (fun wid => decide (wid ∈ pool.word_map_keys))) := by
    rw [create_preposition_session, hs5, hs4, hs3, hs2, hs1, hids, ht1]
  rw [hgoal, hfil]
  constructor
  · rw [(hshw s5).length_eq]
    omega
  · exact (hshw s5).symm.nodup hs5nd

end preposition_builder

namespace word_builder

theorem ltm_loop_length (lookup : Option ℕ → Option Word) (t : ℕ)
    (l : List CardStateSnapshot) : ∀ acc : List PoolItem, acc.length ≤ t →
    (∀ c ∈ l, (lookup c.word_id).isSome) →
    (ltm_loop lookup t acc l).length = min t (acc.length + l.length) := by
  induction l with
  | nil =>
    intro acc hlen _
    simp only [ltm_loop, List.length_nil]
    omega
  | cons c cs ih =>
    intro acc hlen hsome
    simp only [ltm_loop]
    by_cases h1 : t ≤ acc.length
    · rw [if_pos h1]
      have : acc.length = t := le_antisymm hlen h1
      simp only [List.length_cons]
      omega
    · rw [if_neg h1]
      obtain ⟨w, hw⟩ := Option.isSome_iff_exists.mp (hsome c (List.mem_cons_self _ _))
      rw [hw]
      show (ltm_loop lookup t (acc ++ [PoolItem.mk w "ltm"]) cs).length = _
      have hrec := ih (acc ++ [PoolItem.mk w "ltm"]) (by simp; omega)
        (fun c' hc' => hsome c' (List.mem_cons_of_mem _ hc'))
      rw [hrec]
      simp only [List.length_append, List.length_singleton, List.length_cons,
        List.length_nil]
      omega

end word_builder

namespace pool_utils

theorem fill_pool_length (t : ℕ) (l : List PoolItem) : ∀ s : List PoolItem,
    s.length ≤ t → (fill_pool t s l).length = min t (s.length + l.length) := by
  induction l with
  | nil =>
    intro s hs
    simp only [fill_pool, List.length_nil]
    omega
  | cons x xs ih =>
    intro s hs
    simp only [fill_pool]
    by_cases h1 : t ≤ s.length
    · rw [if_pos h1]
      have : s.length = t := le_antisymm hs h1
      simp only [List.length_cons]
      omega
    · rw [if_neg h1]
      rw [ih (s ++ [x]) (by simp; omega)]
      simp only [List.length_append, List.length_singleton, List.length_cons,
        List.length_nil]
      omega

end pool_utils

/-! ### Claim C6 — exact session size under sufficient pools -/

/-- Claim C6 counterexample: the word session builder has no remaining-LTM
or KNOWN fallback and caps its LTM pool at
`SESSION_SIZE · LTM_FRACTION = 15`. With 20 fully due cards (so the LTM
pool of the spec, `R < R_TARGET`, holds 20 ≥ N = 20 entries and the
premise `|LTM|+|STM|+|NEW|+|KNOWN| ≥ N` is met), `create_session` returns
only 15 items, not `N = 20`. -/
theorem claim_C6_counterexample :
    (pool_utils.due_cards_from_snapshot cards20 R_TARGET).length = 20 ∧
    (word_builder.create_session take_sample_words id_shuffle_items words20 cards20
      "word_translation" []).length = 15 := by
  have hlenc : cards20.length = 20 := by simp [cards20]
  have hfil : cards20.filter (fun c => decide (c.retrievability < R_TARGET)) = cards20 := by
    rw [List.filter_eq_self]
    intro a ha
    simp only [cards20, List.mem_map, List.mem_range] at ha
    obtain ⟨i, hi, h⟩ := ha
    subst h
    simp only [decide_eq_true_eq, R_TARGET]
    norm_num
  have hdue : (pool_utils.due_cards_from_snapshot cards20 R_TARGET).length = 20 := by
    unfold pool_utils.due_cards_from_snapshot
    rw [hfil, (List.mergeSort_perm _ _).length_eq, hlenc]
  refine ⟨hdue, ?_⟩
  have hdsub : ∀ c ∈ pool_utils.due_cards_from_snapshot cards20 R_TARGET, c ∈ cards20 := by
    intro c hc
    unfold pool_utils.due_cards_from_snapshot at hc
    rw [hfil] at hc
    exact (List.mergeSort_perm _ _).subset hc
  have hsome : ∀ c ∈ pool_utils.due_cards_from_snapshot cards20 R_TARGET,
      (word_builder.lookup_opt words20 c.word_id).isSome := by
    intro c hc
    have hmemc := hdsub c hc
    simp only [cards20, List.mem_map, List.mem_range] at hmemc
    obtain ⟨i, hi, h⟩ := hmemc
    subst h
    simp only [word_builder.lookup_opt, word_id_lookup]
    have hmem : (⟨some (i+1)⟩ : Word) ∈ words20.filter (fun w => w.word_id = some (i+1)) := by
      rw [List.mem_filter]
      refine ⟨?_, by simp⟩
      simp only [words20, List.mem_map, List.mem_range]
      exact ⟨i, hi, rfl⟩
    exact List.getLast?_isSome.mpr (List.ne_nil_of_mem hmem)
  have htarget : ((⌊(word_builder.SESSION_SIZE : ℚ) * word_builder.LTM_FRACTION⌋).toNat) = 15 := by
    norm_num [word_builder.SESSION_SIZE, word_builder.LTM_FRACTION]
    rfl
  have hltm : (word_builder.ltm_loop (word_builder.lookup_opt words20)
      ((⌊(word_builder.SESSION_SIZE : ℚ) * word_builder.LTM_FRACTION⌋).toNat) []
      (pool_utils.due_cards_from_snapshot cards20 R_TARGET)).length = 15 := by
    rw [word_builder.ltm_loop_length _ _ _ [] (by simp) hsome, hdue, htarget]
    simp
  have hreviewed : ∀ i : ℕ, i < 20 → (i + 1) ∈ cards20.filterMap (fun c => c.word_id) := by
    intro i hi
    rw [List.mem_filterMap]
    refine ⟨⟨some (i+1), 0⟩, ?_, rfl⟩
    simp only [cards20, List.mem_map, List.mem_range]
    exact ⟨i, hi, rfl⟩
  have hnewfil : words20.filter (fun w =>
      match w.word_id with
      | none => true
      | some wid => decide (wid ∉ cards20.filterMap (fun c => c.word_id))) = [] := by
    rw [List.filter_eq_nil_iff]
    intro w hw
    simp only [words20, List.mem_map, List.mem_range] at hw
    obtain ⟨i, hi, h⟩ := hw
    subst h
    simp only [decide_eq_true_eq]
    intro hcon
    exact hcon (hreviewed i hi)
  have hnew : pool_utils.sample_new_words take_sample_words words20
      (cards20.filterMap (fun c => c.word_id)) word_builder.SESSION_SIZE = [] := by
    unfold pool_utils.sample_new_words
    rw [if_neg (by norm_num [word_builder.SESSION_SIZE]), hnewfil, if_pos rfl]
  simp only [word_builder.create_session, word_builder.build_word_pools, hnew,
    build_stm_words, List.filter_nil, List.filterMap_nil, List.map_nil,
    id_shuffle_items, List.length_map]
  show (pool_utils.fill_in_order _ _).length = 15
  simp only [pool_utils.fill_in_order, List.foldl]
  show (pool_utils.fill_pool _ (pool_utils.fill_pool _ (pool_utils.fill_pool _ [] _) []) []).length = 15
  simp only [pool_utils.fill_pool]
  rw [pool_utils.fill_pool_length _ _ [] (by simp)]
  simp only [List.length_nil, Nat.zero_add]
  rw [hltm]
  norm_num [word_builder.SESSION_SIZE]

/-- Claim C6, amended: the exact-size guarantee holds for the preposition
session assembler, which implements the full fallback chain
LTM → STM → NEW → remaining LTM → KNOWN: for every well-formed pool
snapshot (duplicate-free, pairwise-disjoint pools inside the word map)
with `|LTM| + |STM| + |NEW| + |KNOWN| ≥ N` and well-behaved randomness,
the assembled session has exactly `N` items. The word session builder
lacks the remaining-LTM and KNOWN steps, so the claim fails there (see
the counterexample). -/
theorem claim_C6_amended
    (shuffle_stm : List ℕ → List ℕ) (sample_new sample_known : List ℕ → ℕ → List ℕ)
    (shuffle_words : List ℕ → List ℕ) (pool : preposition_builder.PoolState)
    (N : ℕ) (f : ℚ) (hf1 : f ≤ 1)
    (hshs : ∀ l, (shuffle_stm l).Perm l)
    (hsnl : ∀ l k, k ≤ l.length → (sample_new l k).length = k)
    (hsns : ∀ l k, (sample_new l k).Subperm l)
    (hskl : ∀ l k, k ≤ l.length → (sample_known l k).length = k)
    (hsks : ∀ l k, (sample_known l k).Subperm l)
    (hshw : ∀ l, (shuffle_words l).Perm l)
    (hndL : pool.ltm.Nodup) (hndS : pool.stm.Nodup) (hndN : pool.new.Nodup)
    (hndK : pool.known.Nodup)
    (hSL : ∀ x ∈ pool.stm, x ∉ pool.ltm)
    (hNL : ∀ x ∈ pool.new, x ∉ pool.ltm) (hNS : ∀ x ∈ pool.new, x ∉ pool.stm)
    (hKL : ∀ x ∈ pool.known, x ∉ pool.ltm) (hKS : ∀ x ∈ pool.known, x ∉ pool.stm)
    (hKN : ∀ x ∈ pool.known, x ∉ pool.new)
    (hsub : ∀ x, (x ∈ pool.ltm ∨ x ∈ pool.stm ∨ x ∈ pool.new ∨ x ∈ pool.known) →
      x ∈ pool.word_map_keys)
    (hN : N ≤ pool.ltm.length + pool.stm.length + pool.new.length + pool.known.length) :
    (preposition_builder.create_preposition_session shuffle_stm sample_new sample_known
      shuffle_words pool N f).length = N := by
  obtain ⟨hlen, _⟩ := preposition_builder.create_preposition_session_spec shuffle_stm
    sample_new sample_known shuffle_words pool N f hf1 hshs hsnl hsns hskl hsks hshw
    hndL hndS hndN hndK hSL hNL hNS hKL hKS hKN hsub
  rw [hlen]
  omega

/-- Concrete instance of `claim_C6_amended`: the pool `poolB`
(`|LTM| = 1`, `|STM| = 1`, `|NEW| = 1`, `|KNOWN| = 2`), `N = 4`,
`f_LTM = 1/2`, with identity shuffles and take-first samples. -/
theorem claim_C6_witness :
    (preposition_builder.create_preposition_session id_shuffle take_sample take_sample
      id_shuffle poolB 4 (1/2)).length = 4 :=
  claim_C6_amended id_shuffle take_sample take_sample id_shuffle poolB 4 (1/2)
    (by norm_num)
    (fun l => List.Perm.refl l)
    (fun l k h => by simp only [take_sample, List.length_take]; omega)
    (fun l k => (List.take_sublist k l).subperm)
    (fun l k h => by simp only [take_sample, List.length_take]; omega)
    (fun l k => (List.take_sublist k l).subperm)
    (fun l => List.Perm.refl l)
    (by decide) (by decide) (by decide) (by decide)
    (by decide) (by decide) (by decide) (by decide) (by decide) (by decide)
    (by intro x hx; simp [poolB] at hx ⊢; omega) (by decide)

/-! ### Claim C10 — no duplicate word ids in an assembled session -/

/-- Claim C10: for every well-formed pool snapshot (duplicate-free,
pairwise-disjoint pools, as the pool builders produce) and well-behaved
randomness, the session assembled by the five-step chain
LTM → STM → NEW → remaining LTM → KNOWN contains each word id at most
once. -/
theorem claim_C10
    (shuffle_stm : List ℕ → List ℕ) (sample_new sample_known : List ℕ → ℕ → List ℕ)
    (shuffle_words : List ℕ → List ℕ) (pool : preposition_builder.PoolState)
    (N : ℕ) (f : ℚ) (hf1 : f ≤ 1)
    (hshs : ∀ l, (shuffle_stm l).Perm l)
    (hsnl : ∀ l k, k ≤ l.length → (sample_new l k).length = k)
    (hsns : ∀ l k, (sample_new l k).Subperm l)
    (hskl : ∀ l k, k ≤ l.length → (sample_known l k).length = k)
    (hsks : ∀ l k, (sample_known l k).Subperm l)
    (hshw : ∀ l, (shuffle_words l).Perm l)
    (hndL : pool.ltm.Nodup) (hndS : pool.stm.Nodup) (hndN : pool.new.Nodup)
    (hndK : pool.known.Nodup)
    (hSL : ∀ x ∈ pool.stm, x ∉ pool.ltm)
    (hNL : ∀ x ∈ pool.new, x ∉ pool.ltm) (hNS : ∀ x ∈ pool.new, x ∉ pool.stm)
    (hKL : ∀ x ∈ pool.known, x ∉ pool.ltm) (hKS : ∀ x ∈ pool.known, x ∉ pool.stm)
    (hKN : ∀ x ∈ pool.known, x ∉ pool.new)
    (hsub : ∀ x, (x ∈ pool.ltm ∨ x ∈ pool.stm ∨ x ∈ pool.new ∨ x ∈ pool.known) →
      x ∈ pool.word_map_keys) :
    (preposition_builder.create_preposition_session shuffle_stm sample_new sample_known
      shuffle_words pool N f).Nodup :=
  (preposition_builder.create_preposition_session_spec shuffle_stm
    sample_new sample_known shuffle_words pool N f hf1 hshs hsnl hsns hskl hsks hshw
    hndL hndS hndN hndK hSL hNL hNS hKL hKS hKN hsub).2

/-- Concrete instance of `claim_C10` on the pool `poolB`. -/
theorem claim_C10_witness :
    (preposition_builder.create_preposition_session id_shuffle take_sample take_sample
      id_shuffle poolB 4 (1/2)).Nodup :=
  claim_C10 id_shuffle take_sample take_sample id_shuffle poolB 4 (1/2)
    (by norm_num)
    (fun l => List.Perm.refl l)
    (fun l k h => by simp only [take_sample, List.length_take]; omega)
    (fun l k => (List.take_sublist k l).subperm)
    (fun l k h => by simp only [take_sample, List.length_take]; omega)
    (fun l k => (List.take_sublist k l).subperm)
    (fun l => List.Perm.refl l)
    (by decide) (by decide) (by decide) (by decide)
    (by decide) (by decide) (by decide) (by decide) (by decide) (by decide)
    (by intro x hx; simp [poolB] at hx ⊢; omega)

/-! ### Claim C7 — STM membership excludes the other pools -/

theorem word_id_lookup_mem {all_words : List Word} {wid : ℕ} {w : Word}
    (h : word_id_lookup all_words wid = some w) :
    w ∈ all_words ∧ w.word_id = some wid := by
  unfold word_id_lookup at h
  obtain ⟨hne, rfl⟩ := List.mem_getLast?_eq_getLast (x := w) h
  have hmem := List.getLast_mem hne
  refine ⟨List.mem_of_mem_filter hmem, ?_⟩
  have := List.of_mem_filter hmem
  simpa using this

/-- Claim C7: in every pool snapshot produced by the word, verb or
preposition builder, a word id in the STM pool is absent from the LTM,
NEW and KNOWN pools (the word builder keeps no KNOWN pool at all; the
verb builder's pools are LTM, STM, NEW). -/
theorem claim_C7 :
    (∀ (sample : List Word → ℕ → List Word),
      (∀ (l : List Word) (k : ℕ) (w : Word), w ∈ sample l k → w ∈ l) →
      ∀ (all_words : List Word) (all_cards : List CardStateSnapshot) (extype : String)
        (stm_set : List (ℕ × String)) (rth : ℚ) (wid : ℕ) (item : PoolItem),
        item ∈ (word_builder.build_word_pools sample all_words all_cards extype
          stm_set rth).2.1 →
        item.word.word_id = some wid →
        (∀ it2 ∈ (word_builder.build_word_pools sample all_words all_cards extype
            stm_set rth).1, it2.word.word_id ≠ some wid) ∧
        (∀ it3 ∈ (word_builder.build_word_pools sample all_words all_cards extype
            stm_set rth).2.2, it3.word.word_id ≠ some wid)) ∧
    (∀ (verbs : List Word) (rth : ℚ) (pm pam : List (ℕ × ℚ))
        (sp spa : List (ℕ × String)) (wid : ℕ) (item : PoolItem),
        item ∈ (verb_builder.build_verb_pools verbs rth pm pam sp spa).2.1 →
        item.word.word_id = some wid →
        (∀ it2 ∈ (verb_builder.build_verb_pools verbs rth pm pam sp spa).1,
          it2.word.word_id ≠ some wid) ∧
        (∀ it3 ∈ (verb_builder.build_verb_pools verbs rth pm pam sp spa).2.2,
          it3.word.word_id ≠ some wid)) ∧
    (∀ (keys : List ℕ) (r_by_id : List (ℕ × ℚ)) (stm_set : List (ℕ × String)) (wid : ℕ),
        wid ∈ (preposition_builder.build_preposition_pool_state keys r_by_id stm_set).stm →
        wid ∉ (preposition_builder.build_preposition_pool_state keys r_by_id stm_set).ltm ∧
        wid ∉ (preposition_builder.build_preposition_pool_state keys r_by_id stm_set).new ∧
        wid ∉ (preposition_builder.build_preposition_pool_state keys r_by_id stm_set).known) := by
  refine ⟨?_, ?_, ?_⟩
  · -- word builder
    intro sample hsample all_words all_cards extype stm_set rth wid item hitem hid
    simp only [word_builder.build_word_pools] at hitem ⊢
    rw [List.mem_map] at hitem
    obtain ⟨w, hwmem, rfl⟩ := hitem
    rw [List.mem_filter] at hwmem
    obtain ⟨hstmw, hpred⟩ := hwmem
    simp only at hid
    rw [hid] at hpred
    simp only [decide_eq_true_eq] at hpred
    constructor
    · intro it2 hit2 hid2
      exact hpred (List.mem_filterMap.mpr ⟨it2, hit2, hid2⟩)
    · intro it3 hit3 hid3
      rw [List.mem_map] at hit3
      obtain ⟨w3, hw3, rfl⟩ := hit3
      simp only at hid3
      unfold pool_utils.sample_new_words at hw3
      split at hw3
      · exact absurd hw3 (List.not_mem_nil _)
      · dsimp only at hw3
        split at hw3
        · exact absurd hw3 (List.not_mem_nil _)
        · have hw3f := hsample _ _ _ hw3
          have hpred3 := List.of_mem_filter hw3f
          rw [hid3] at hpred3
          simp only [decide_eq_true_eq] at hpred3
          unfold build_stm_words at hstmw
          rw [List.mem_filterMap] at hstmw
          obtain ⟨p, hpmem, hlook⟩ := hstmw
          have hpf := List.of_mem_filter hpmem
          simp only [decide_eq_true_eq] at hpf
          obtain ⟨_, c, hcmem, hcid⟩ := hpf
          obtain ⟨_, hwid⟩ := word_id_lookup_mem hlook
          rw [hid] at hwid
          have hwp : wid = p.1 := Option.some_injective _ hwid
          exact hpred3 (List.mem_filterMap.mpr ⟨c, hcmem, by rw [hcid, hwp]⟩)
  · -- verb builder
    intro verbs rth pm pam sp spa wid item hitem hid
    simp only [verb_builder.build_verb_pools] at hitem ⊢
    rw [List.mem_filter] at hitem
    obtain ⟨hmem0, hpred⟩ := hitem
    rw [hid] at hpred
    simp only [decide_eq_true_eq] at hpred
    obtain ⟨hnl, hnn⟩ := hpred
    constructor
    · intro it2 hit2 hid2
      exact hnl (List.mem_filterMap.mpr ⟨it2, hit2, hid2⟩)
    · intro it3 hit3 hid3
      exact hnn (List.mem_filterMap.mpr ⟨it3, hit3, hid3⟩)
  · -- preposition builder
    intro keys r_by_id stm_set wid hstm
    simp only [preposition_builder.build_preposition_pool_state] at hstm ⊢
    refine ⟨?_, ?_, ?_⟩ <;>
    · intro hmem
      have := List.of_mem_filter hmem
      simp only [decide_eq_true_eq] at this
      exact this hstm

/-- Concrete instance of `claim_C7` (preposition part): word 1 is in STM
and is excluded from the other pools of the built snapshot. -/
theorem claim_C7_witness :
    (1 : ℕ) ∉ (preposition_builder.build_preposition_pool_state [1, 2] [(1, 0)]
      [(1, "word_preposition")]).ltm ∧
    (1 : ℕ) ∉ (preposition_builder.build_preposition_pool_state [1, 2] [(1, 0)]
      [(1, "word_preposition")]).new ∧
    (1 : ℕ) ∉ (preposition_builder.build_preposition_pool_state [1, 2] [(1, 0)]
      [(1, "word_preposition")]).known :=
  claim_C7.2.2 [1, 2] [(1, 0)] [(1, "word_preposition")] 1
    (by simp [preposition_builder.build_preposition_pool_state])

/-! ### Claim C8 — the initial STM pool -/

/-- Claim C8 counterexample: word 7 got AGAIN at the epoch and then EASY
an hour later (both today, UTC). Its most recent same-window feedback is
EASY, so the claim says it is excluded from the initial STM set; but
`build_stm_set` queries AGAIN events only and never inspects later
feedback, so the pair is included. -/
theorem claim_C8_counterexample :
    (7, "word_translation") ∈ build_stm_set [ev1, ev2] "ben" "word_translation" 43200 ∧
    ¬ spec_stm_mem [ev1, ev2] "ben" "word_translation" 43200 7 := by
  have hts : today_start 43200 - 86400 ≤ (0 : ℚ) := by
    simp only [today_start]
    norm_num
  constructor
  · simp only [build_stm_set, List.mem_dedup, List.mem_map]
    refine ⟨ev1, ?_, rfl⟩
    rw [List.mem_filter]
    refine ⟨by simp, ?_⟩
    simp only [ev1, decide_eq_true_eq]
    exact ⟨trivial, trivial, hts, trivial⟩
  · intro hspec
    simp only [spec_stm_mem] at hspec
    obtain ⟨-, hno⟩ := hspec
    apply hno
    refine ⟨ev2, ?_, rfl, ?_⟩
    · rw [List.mem_filter]
      refine ⟨by simp, ?_⟩
      simp only [ev2, decide_eq_true_eq]
      refine ⟨trivial, trivial, ?_, trivial⟩
      simp only [today_start]
      norm_num
    · intro e2 he2
      rw [List.mem_filter] at he2
      have hmem := he2.1
      simp only [List.mem_cons, List.not_mem_nil, or_false] at hmem
      rcases hmem with rfl | rfl
      · norm_num [ev1, ev2]
      · norm_num [ev2]

/-- Claim C8, amended: the initial STM set contains exactly the
`(word_id, exercise_type)` pairs of this user and activity with an AGAIN
event since the start of yesterday (UTC), regardless of any later
feedback — the EASY exclusion happens only dynamically, through
`update_stm_set`, during a session. -/
theorem claim_C8_amended (events : List ReviewEventRow) (u x : String) (now : ℚ)
    (wid : ℕ) (ex2 : String) :
    (wid, ex2) ∈ build_stm_set events u x now ↔
      (ex2 = x ∧ ∃ e ∈ events, e.user_id = u ∧ e.exercise_type = x ∧
        today_start now - 86400 ≤ e.timestamp ∧
        e.feedback_grade = FeedbackGrade.AGAIN ∧ e.word_id = wid) := by
  simp only [build_stm_set, List.mem_dedup, List.mem_map, List.mem_filter,
    decide_eq_true_eq, Prod.mk.injEq]
  constructor
  · rintro ⟨e, ⟨⟨he, hu, hx, ht, hg⟩, hw, hex⟩⟩
    exact ⟨by rw [← hex, hx], e, he, hu, hx, ht, hg, hw⟩
  · rintro ⟨hex, e, he, hu, hx, ht, hg, hw⟩
    exact ⟨e, ⟨he, hu, hx, ht, hg⟩, hw, by rw [hx, hex]⟩
